import Mathlib

/-!
Verification of the woodwork type-system and schema specification.

The repository's files under `src/` are documentation notebooks; the core
implementation (type registry, inference engine, column/table schema,
serialization, validation) is not present.  All definitions below are
therefore modelled from the specification's words (spec.md §3, §4, §6) and
the repository's documentation, as shallow executable Lean embeddings.
-/

namespace Woodwork

/-- Modelled from the spec: a registered LogicalType descriptor in the type
registry (§3 LogicalType, §4.1).  `registered` is the `is_registered` flag
(removed types remain resolvable but unregistered), `parent` the edge of the
relationship forest, `infFn` the optional inference predicate over a value
sample of type `α`. -/
structure TypeEntry (α : Type) where
  name : String
  registered : Bool
  parent : Option String
  infFn : Option (α → Bool)

/-- Modelled from the spec: the type registry (§4.1).  The list order is
registration order, which drives the inference tie-break. -/
structure TypeSystem (α : Type) where
  entries : List (TypeEntry α)

variable {α : Type}

/-- Look a type up by name (removed types stay resolvable). -/
def lookupType (ts : TypeSystem α) (n : String) : Option (TypeEntry α) :=
  ts.entries.find? (fun e => e.name == n)

/-- The parent pointer of a named type, if any. -/
def parentOf (ts : TypeSystem α) (n : String) : Option String :=
  (lookupType ts n).bind (·.parent)

/-- Whether an optional parent reference names a currently-registered type
(`none` is always acceptable: the type becomes a root). -/
def parentOk (ts : TypeSystem α) (parent : Option String) : Bool :=
  match parent with
  | none => true
  | some p =>
    match lookupType ts p with
    | some e => e.registered
    | none => false

/-- Modelled from the spec: `add_type` (§4.1).  Fails with
`DuplicateTypeError` if the name is already registered (re-adding an
unregistered removed type re-registers it in place) and with
`UnknownParentError` if the parent is not a currently-registered type;
otherwise appends the new type, so registration order is list order. -/
def add_type (ts : TypeSystem α) (n : String) (fn : Option (α → Bool))
    (parent : Option String) : Except String (TypeSystem α) :=
  match lookupType ts n with
  | some e =>
    if e.registered then .error "DuplicateTypeError"
    else if parentOk ts parent then
      .ok ⟨ts.entries.map (fun d =>
        if d.name == n then ⟨n, true, parent, fn⟩ else d)⟩
    else .error "UnknownParentError"
  | none =>
    if parentOk ts parent then
      .ok ⟨ts.entries ++ [⟨n, true, parent, fn⟩]⟩
    else .error "UnknownParentError"

/-- Fuel-bounded walk up the ancestor chain testing whether it reaches the
named type; exhausted fuel is treated as a cycle.  Used for the cycle check
of `update_relationship`. -/
def ancestorContains : Nat → TypeSystem α → Option String → String → Bool
  | _, _, none, _ => false
  | 0, _, some _, _ => true
  | fuel + 1, ts, some m, n => m == n || ancestorContains fuel ts (parentOf ts m) n

/-- Modelled from the spec: `update_relationship` (§4.1) changes a type's
parent (`none` makes it a root); it fails if the type or the new parent is
not registered, or if the change would create a cycle. -/
def update_relationship (ts : TypeSystem α) (n : String)
    (newParent : Option String) : Except String (TypeSystem α) :=
  match lookupType ts n with
  | none => .error "UnknownTypeError"
  | some e =>
    if !e.registered then .error "UnknownTypeError"
    else
      match newParent with
      | none =>
        .ok ⟨ts.entries.map (fun d =>
          if d.name == n then { d with parent := none } else d)⟩
      | some p =>
        if parentOk ts (some p) then
          if ancestorContains (ts.entries.length + 1) ts (some p) n then
            .error "CycleError"
          else
            .ok ⟨ts.entries.map (fun d =>
              if d.name == n then { d with parent := some p } else d)⟩
        else .error "UnknownParentError"

/-- The per-entry transformation of `remove_type`: the removed type is
marked unregistered, and any child of it is reparented to the removed
type's former parent `newParent`. -/
def removeEntry (n : String) (newParent : Option String)
    (e : TypeEntry α) : TypeEntry α :=
  if e.name == n then { e with registered := false }
  else if e.parent == some n then { e with parent := newParent }
  else e

/-- Modelled from the spec: `remove_type` (§4.1) marks the type
unregistered (it stays resolvable), reparents each of its children to the
removed type's former parent (or makes them roots if it had none), and
fails with `UnknownTypeError` if the name is not registered. -/
def remove_type (ts : TypeSystem α) (n : String) :
    Except String (TypeSystem α) :=
  match lookupType ts n with
  | some e =>
    if e.registered then .ok ⟨ts.entries.map (removeEntry n e.parent)⟩
    else .error "UnknownTypeError"
  | none => .error "UnknownTypeError"

/-- Whether an entry's inference function matches the sample; a type with
no inference function never matches automatically (§4.1, §4.2). -/
def matchFn (s : α) (e : TypeEntry α) : Bool :=
  match e.infFn with
  | some f => f s
  | none => false

/-- The roots of the relationship forest: registered types with no parent. -/
def rootEntries (ts : TypeSystem α) : List (TypeEntry α) :=
  ts.entries.filter (fun e => e.registered && e.parent == none)

/-- The registered children of any of the named types, in registration
order. -/
def childEntries (ts : TypeSystem α) (names : List String) :
    List (TypeEntry α) :=
  ts.entries.filter (fun e =>
    e.registered &&
      match e.parent with
      | some p => names.contains p
      | none => false)

/-- One breadth level of the inference traversal (§4.2): evaluate every
type at the level, descend into the children of the matching subset, and
remember the first match in registration order; stop at the first level
with no matches, answering the last level's first match. -/
def inferAux : Nat → TypeSystem α → α → List (TypeEntry α) → String → String
  | 0, _, _, _, best => best
  | fuel + 1, ts, s, level, best =>
    match level.filter (matchFn s) with
    | [] => best
    | m :: ms => inferAux fuel ts s (childEntries ts ((m :: ms).map (·.name))) m.name

/-- Modelled from the spec: the inference engine (§4.2).  Breadth-first
traversal of the relationship forest from the roots; the last level that
produced a match determines the result, ties broken by registration order;
if no root matches the default fallback type `Unknown` is returned and no
error is ever raised. -/
def infer (ts : TypeSystem α) (s : α) : String :=
  inferAux (ts.entries.length + 1) ts s (rootEntries ts) "Unknown"

end Woodwork

namespace Woodwork

variable {α : Type}

/-- A two-type registry built by registering a parent `P` (a root) and then
a child `T` under it, as in the documentation's `UPCCode`-under-
`Categorical` walk-through. -/
theorem add_type_parent_child_shape (pN tN : String) (fP fT : α → Bool)
    (hne : pN ≠ tN) (ts1 ts2 : TypeSystem α)
    (h1 : add_type (⟨[]⟩ : TypeSystem α) pN (some fP) none = .ok ts1)
    (h2 : add_type ts1 tN (some fT) (some pN) = .ok ts2) :
    ts2 = ⟨[⟨pN, true, none, some fP⟩, ⟨tN, true, some pN, some fT⟩]⟩ := by
  simp only [add_type, lookupType, parentOk, List.find?_nil] at h1
  obtain rfl : ts1 = ⟨[⟨pN, true, none, some fP⟩]⟩ := by
    simpa using h1.symm
  simp only [add_type, lookupType, parentOk, List.find?_cons, List.find?_nil] at h2
  have hbeq : (pN == tN) = false := by
    simpa using hne
  rw [hbeq] at h2
  simp at h2
  exact h2.symm

/-- C1: registering a child type `T` under a parent `P`, `infer` returns the
more specific `T` (never `P`) on a sample matching both inference
functions, and returns `P` on a sample matching only `P`'s function. -/
theorem infer_child_specificity (pN tN : String) (fP fT : α → Bool) (s : α)
    (hne : pN ≠ tN) (ts1 ts2 : TypeSystem α)
    (h1 : add_type (⟨[]⟩ : TypeSystem α) pN (some fP) none = .ok ts1)
    (h2 : add_type ts1 tN (some fT) (some pN) = .ok ts2)
    (hP : fP s = true) :
    (fT s = true → infer ts2 s = tN) ∧ (fT s = false → infer ts2 s = pN) := by
  obtain rfl := add_type_parent_child_shape pN tN fP fT hne ts1 ts2 h1 h2
  have hb : (some pN == (none : Option String)) = false := by simp
  constructor
  · intro hT
    simp [infer, inferAux, rootEntries, childEntries, matchFn, List.filter,
      hP, hT, hb, hne]
  · intro hT
    simp [infer, inferAux, rootEntries, childEntries, matchFn, List.filter,
      hP, hT, hb, hne]

/-- Inference function used in concrete witnesses: matches a sample equal
to 7. -/
def wEq7 : Nat → Bool := fun n => n == 7

/-- Inference function used in concrete witnesses: matches any sample. -/
def wAny : Nat → Bool := fun _ => true

/-- Witness registry after registering `Categorical` as a root. -/
def wTS1 : TypeSystem Nat := ⟨[⟨"Categorical", true, none, some wAny⟩]⟩

/-- Witness registry after also registering `UPCCode` under `Categorical`. -/
def wTS2 : TypeSystem Nat :=
  ⟨[⟨"Categorical", true, none, some wAny⟩,
    ⟨"UPCCode", true, some "Categorical", some wEq7⟩]⟩

/-- Concrete witness for C1: on the documentation's scenario (a `UPCCode`
child under `Categorical`), a sample matching both functions infers the
child and a sample matching only the parent infers the parent. -/
theorem infer_child_specificity_witness :
    infer wTS2 7 = "UPCCode" ∧ infer wTS2 3 = "Categorical" :=
  ⟨(infer_child_specificity "Categorical" "UPCCode" wAny wEq7 7
      (by decide) wTS1 wTS2 rfl rfl rfl).1 rfl,
   (infer_child_specificity "Categorical" "UPCCode" wAny wEq7 3
      (by decide) wTS1 wTS2 rfl rfl rfl).2 rfl⟩

/-- C2: after `update_relationship` makes the child a root, two matching
types share a breadth level and `infer` tie-breaks to the one registered
first. -/
theorem infer_sibling_tiebreak_registration_order (pN tN : String)
    (fP fT : α → Bool) (s : α) (hne : pN ≠ tN) (ts1 ts2 ts3 : TypeSystem α)
    (h1 : add_type (⟨[]⟩ : TypeSystem α) pN (some fP) none = .ok ts1)
    (h2 : add_type ts1 tN (some fT) (some pN) = .ok ts2)
    (h3 : update_relationship ts2 tN none = .ok ts3)
    (hP : fP s = true) (hT : fT s = true) :
    infer ts3 s = pN := by
  obtain rfl := add_type_parent_child_shape pN tN fP fT hne ts1 ts2 h1 h2
  have hbeq : (pN == tN) = false := by simpa using hne
  simp only [update_relationship, lookupType, List.find?_cons, List.find?_nil,
    hbeq] at h3
  simp only [beq_self_eq_true] at h3
  simp [hbeq] at h3
  obtain rfl := h3.symm
  simp [infer, inferAux, rootEntries, childEntries, matchFn, List.filter,
    hP, hT, hne]

/-- Witness registry for C2: `wTS2` after setting the child's parent to
`none`, making `Categorical` and `UPCCode` sibling roots. -/
def wTS3 : TypeSystem Nat :=
  ⟨[⟨"Categorical", true, none, some wAny⟩,
    ⟨"UPCCode", true, none, some wEq7⟩]⟩

/-- Concrete witness for C2: a sample matching both sibling roots infers
the first-registered `Categorical`. -/
theorem infer_sibling_tiebreak_registration_order_witness :
    infer wTS3 7 = "Categorical" :=
  infer_sibling_tiebreak_registration_order "Categorical" "UPCCode"
    wAny wEq7 7 (by decide) wTS1 wTS2 wTS3 rfl rfl rfl rfl rfl

/-- C3: if no root type's inference function matches the sample, `infer`
returns the default fallback type `Unknown` (and, being a total function,
never raises an error). -/
theorem infer_no_match_unknown (ts : TypeSystem α) (s : α)
    (h : (rootEntries ts).filter (matchFn s) = []) :
    infer ts s = "Unknown" := by
  simp [infer, inferAux, h]

/-- Witness registry for C3: a single root whose function rejects the
sample. -/
def wTSInt : TypeSystem Nat := ⟨[⟨"Integer", true, none, some wEq7⟩]⟩

/-- Concrete witness for C3: a sample matched by no root infers `Unknown`. -/
theorem infer_no_match_unknown_witness : infer wTSInt 5 = "Unknown" :=
  infer_no_match_unknown wTSInt 5 rfl

/-- Fuel-bounded length of the ancestor chain starting at an optional
parent pointer: the inference depth of a type is the chain length from its
parent upward. -/
def depthAux : Nat → TypeSystem α → Option String → Nat
  | _, _, none => 0
  | 0, _, some _ => 0
  | fuel + 1, ts, some n => depthAux fuel ts (parentOf ts n) + 1

/-- Inference depth of a named type: the number of ancestors above it in
the relationship forest (a root has depth 0). -/
def typeDepth (ts : TypeSystem α) (n : String) : Nat :=
  depthAux ts.entries.length ts (parentOf ts n)

/-- The ancestor chain from an optional parent pointer terminates within
the given fuel and never passes through a type whose parent is `bad`. -/
def chainOk : Nat → TypeSystem α → Option String → String → Bool
  | _, _, none, _ => true
  | 0, _, some _, _ => false
  | fuel + 1, ts, some n, bad =>
    (parentOf ts n != some bad) && chainOk fuel ts (parentOf ts n) bad

theorem lookupType_name {ts : TypeSystem α} {n : String} {e : TypeEntry α}
    (h : lookupType ts n = some e) : e.name = n := by
  have := List.find?_some h
  simpa using this

theorem removeEntry_name (n : String) (p : Option String) (e : TypeEntry α) :
    (removeEntry n p e).name = e.name := by
  unfold removeEntry
  split
  · rename_i h
    simp_all
  · split <;> rfl

theorem lookupType_removeMap (ts : TypeSystem α) (tN : String)
    (p : Option String) (n : String) :
    lookupType (⟨ts.entries.map (removeEntry tN p)⟩ : TypeSystem α) n =
      (lookupType ts n).map (removeEntry tN p) := by
  unfold lookupType
  induction ts.entries with
  | nil => rfl
  | cons e es ih =>
    simp only [List.map_cons, List.find?_cons]
    rw [removeEntry_name]
    cases h : (e.name == n) <;> simp [ih]

theorem parentOf_removeMap (ts : TypeSystem α) (tN : String)
    (p : Option String) (n : String)
    (h : parentOf ts n ≠ some tN) :
    parentOf (⟨ts.entries.map (removeEntry tN p)⟩ : TypeSystem α) n =
      parentOf ts n := by
  unfold parentOf
  rw [lookupType_removeMap]
  cases he : lookupType ts n with
  | none => rfl
  | some e =>
    show (removeEntry tN p e).parent = e.parent
    unfold removeEntry
    split
    · rfl
    · split
      · rename_i hp
        exfalso
        apply h
        show (lookupType ts n).bind (fun e => e.parent) = some tN
        rw [he]
        exact eq_of_beq hp
      · rfl

theorem depthAux_removeMap (ts : TypeSystem α) (tN : String)
    (p : Option String) :
    ∀ f g : Nat, f ≤ g → ∀ o : Option String,
      chainOk f ts o tN = true →
      depthAux g (⟨ts.entries.map (removeEntry tN p)⟩ : TypeSystem α) o =
        depthAux f ts o := by
  intro f
  induction f with
  | zero =>
    intro g _ o hc
    cases o with
    | none => cases g <;> rfl
    | some n => simp [chainOk] at hc
  | succ f ih =>
    intro g hfg o hc
    cases o with
    | none => cases g <;> rfl
    | some n =>
      obtain ⟨g', rfl⟩ : ∃ g', g = g' + 1 := by
        cases g with
        | zero => omega
        | succ g' => exact ⟨g', rfl⟩
      simp only [chainOk, Bool.and_eq_true, bne_iff_ne, ne_eq] at hc
      obtain ⟨hne, hrest⟩ := hc
      simp only [depthAux]
      rw [parentOf_removeMap ts tN p n hne]
      rw [ih g' (by omega) (parentOf ts n) hrest]

/-- C4: `remove_type` on a registered type with a child marks the type
unregistered while keeping it resolvable, reparents the child to the
removed type's former parent (so a child of a root becomes a root), and
decreases the child's inference depth by exactly one level.  The
`chainOk` hypothesis states that the removed type's ancestor chain is
well-founded and does not pass through the removed type (no cycles). -/
theorem remove_type_reparents_children (ts : TypeSystem α) (tN cN : String)
    (tE cE : TypeEntry α)
    (ht : lookupType ts tN = some tE) (hreg : tE.registered = true)
    (hc : lookupType ts cN = some cE) (hcp : cE.parent = some tN)
    (hne : cN ≠ tN)
    (hchain : chainOk (ts.entries.length - 1) ts tE.parent tN = true) :
    ∃ ts' : TypeSystem α, remove_type ts tN = .ok ts' ∧
      lookupType ts' tN = some { tE with registered := false } ∧
      lookupType ts' cN = some { cE with parent := tE.parent } ∧
      typeDepth ts' cN + 1 = typeDepth ts cN := by
  have hlen : ts.entries.length ≠ 0 := by
    intro h0
    have : ts.entries = [] := List.length_eq_zero.mp h0
    rw [lookupType, this] at ht
    simp at ht
  refine ⟨⟨ts.entries.map (removeEntry tN tE.parent)⟩, ?_, ?_, ?_, ?_⟩
  · unfold remove_type
    rw [ht]
    simp [hreg]
  · rw [lookupType_removeMap, ht]
    show some (removeEntry tN tE.parent tE) = some { tE with registered := false }
    unfold removeEntry
    rw [lookupType_name ht]
    simp
  · rw [lookupType_removeMap, hc]
    show some (removeEntry tN tE.parent cE) = some { cE with parent := tE.parent }
    unfold removeEntry
    rw [lookupType_name hc]
    have hb : (cN == tN) = false := by simpa using hne
    rw [hb]
    simp [hcp]
  · have hpc : parentOf ts cN = some tN := by
      simp [parentOf, hc, hcp]
    have hpc' : parentOf
        (⟨ts.entries.map (removeEntry tN tE.parent)⟩ : TypeSystem α) cN =
        tE.parent := by
      unfold parentOf
      rw [lookupType_removeMap, hc]
      show (removeEntry tN tE.parent cE).parent = tE.parent
      unfold removeEntry
      rw [lookupType_name hc]
      have hb : (cN == tN) = false := by simpa using hne
      rw [hb]
      simp [hcp]
    have hpt : parentOf ts tN = tE.parent := by
      simp [parentOf, ht]
    unfold typeDepth
    rw [List.length_map, hpc', hpc]
    obtain ⟨L, hL⟩ : ∃ L, ts.entries.length = L + 1 := by
      cases hl : ts.entries.length with
      | zero => exact absurd hl hlen
      | succ L => exact ⟨L, rfl⟩
    rw [hL]
    simp only [depthAux, hpt]
    have hLc : chainOk L ts tE.parent tN = true := by
      have h1 : ts.entries.length - 1 = L := by omega
      rwa [h1] at hchain
    rw [depthAux_removeMap ts tN tE.parent L (L + 1) (by omega) tE.parent hLc]

/-- Witness registry for C4: a three-level chain `A ← B ← C`. -/
def wChain : TypeSystem Nat :=
  ⟨[⟨"A", true, none, none⟩,
    ⟨"B", true, some "A", none⟩,
    ⟨"C", true, some "B", none⟩]⟩

/-- Concrete witness for C4: removing `B` keeps it resolvable but
unregistered, reparents `C` to `A`, and lowers the depth of `C` from 2 to
1. -/
theorem remove_type_reparents_children_witness :
    ∃ ts' : TypeSystem Nat, remove_type wChain "B" = .ok ts' ∧
      lookupType ts' "B" = some ⟨"B", false, some "A", none⟩ ∧
      lookupType ts' "C" = some ⟨"C", true, some "A", none⟩ ∧
      typeDepth ts' "C" + 1 = typeDepth wChain "C" :=
  remove_type_reparents_children wChain "B" "C"
    ⟨"B", true, some "A", none⟩ ⟨"C", true, some "B", none⟩
    rfl rfl rfl rfl (by decide) rfl

/-- Modelled from the spec: the storage/execution backends the schema layer
can sit on (single-machine pandas, or the distributed Dask and Koalas
tables treated as external collaborators). -/
inductive Backend where
  | pandas
  | dask
  | koalas
deriving DecidableEq

/-- Modelled from the spec: the standard semantic tags a LogicalType
defines (§3, documentation's logical-type tables): numeric types carry
`numeric`, categorical types carry `category`, others none. -/
def stdTagsOf (lt : String) : List String :=
  if lt == "Integer" || lt == "IntegerNullable" || lt == "Double" ||
      lt == "Age" || lt == "AgeNullable" then ["numeric"]
  else if lt == "Categorical" || lt == "Ordinal" || lt == "CountryCode" ||
      lt == "PostalCode" || lt == "SubRegionCode" then ["category"]
  else []

/-- Modelled from the spec: nullability is derived from whether the
LogicalType's primary representation admits missing values (§3
ColumnSchema); the non-nullable representations are `int64`, `float64` and
`bool`. -/
def isNullable (lt : String) : Bool :=
  lt != "Integer" && lt != "Double" && lt != "Boolean" && lt != "Age"

/-- Modelled from the spec: the per-column typing unit (§3 ColumnSchema):
the assigned LogicalType (by name), the optional ordinal order parameter,
and the current semantic tag set. -/
structure ColumnSchema where
  ltypeName : String
  order : Option (List String)
  tags : List String
deriving DecidableEq, Repr

/-- Modelled from the spec: the table-level schema (§3 TableSchema): an
ordered association of column names to column schemas, the optional index
and time-index designations, table name, the `use_standard_tags` flag and
the table metadata bag. -/
structure TableSchema where
  columns : List (String × ColumnSchema)
  index : Option String
  timeIndex : Option String
  name : Option String
  useStandardTags : Bool
  metadata : List (String × String)
deriving DecidableEq, Repr

/-- Add one tag to a tag set, keeping the list duplicate-free. -/
def addTag (tags : List String) (t : String) : List String :=
  if tags.contains t then tags else tags ++ [t]

/-- Add several tags to a tag set. -/
def addTags (tags : List String) (new : List String) : List String :=
  new.foldl addTag tags

/-- Clearing the index designation from a column (§4.4 `set_index`):
removes the `index` tag and, when standard tags are in use, reinstates the
standard tags of the column's LogicalType (they are suppressed on index
columns). -/
def clearIndexCol (useStd : Bool) (c : ColumnSchema) : ColumnSchema :=
  { c with tags := (addTags (c.tags.filter (fun t => t != "index"))
      (if useStd then stdTagsOf c.ltypeName else [])) }

/-- Making a column the index (§4.4 `set_index`): suppresses the standard
tags of its LogicalType and applies the `index` tag. -/
def applyIndexCol (c : ColumnSchema) : ColumnSchema :=
  { c with tags :=
      (addTag (c.tags.filter (fun t => !((stdTagsOf c.ltypeName).contains t)))
        "index") }

/-- Apply a transformation to every column of the given name. -/
def mapCol (cols : List (String × ColumnSchema)) (n : String)
    (f : ColumnSchema → ColumnSchema) : List (String × ColumnSchema) :=
  cols.map (fun p => if p.1 == n then (p.1, f p.2) else p)

/-- Clear any existing index designation of the table (§4.4): drop the
designation and restore the previous index column's tags. -/
def clearIndex (sch : TableSchema) : TableSchema :=
  match sch.index with
  | none => sch
  | some old =>
    { sch with
      index := none
      columns := (mapCol sch.columns old (clearIndexCol sch.useStandardTags)) }

/-- Look a column up by name. -/
def findCol (sch : TableSchema) (n : String) : Option ColumnSchema :=
  (sch.columns.find? (fun p => p.1 == n)).map (·.2)

/-- Look a data column up by name in the backend's data. -/
def lookupData (data : List (String × List Int)) (n : String) :
    Option (List Int) :=
  (data.find? (fun p => p.1 == n)).map (·.2)

/-- Modelled from the spec and the documentation's data-validation
limitations: the index-uniqueness check runs only on pandas input and is
skipped for Dask and Koalas input. -/
def checkIndexUniqueness (b : Backend) (col : List Int) : Bool :=
  match b with
  | .pandas => col.dedup.length == col.length
  | _ => true

/-- The pure index application once validation has passed. -/
def applyIndex (sch : TableSchema) (n : String) : TableSchema :=
  { sch with index := some n, columns := mapCol sch.columns n applyIndexCol }

/-- Modelled from the spec: `set_index` (§4.4): clears the `index` tag and
reinstates standard tags on the previous index column, validates that the
new column exists and (through the backend's uniqueness query) that its
data is unique, then applies the `index` tag and suppresses standard tags
on the new index column.  `none` simply clears any existing index. -/
def set_index (sch : TableSchema) (b : Backend)
    (data : List (String × List Int)) (new : Option String) :
    Except String TableSchema :=
  let cleared := clearIndex sch
  match new with
  | none => .ok cleared
  | some n =>
    if (findCol cleared n).isSome then
      match lookupData data n with
      | some col =>
        if checkIndexUniqueness b col then .ok (applyIndex cleared n)
        else .error "IndexError: Index column must be unique"
      | none => .error "ColumnNotPresentError"
    else .error "ColumnNotPresentError"

theorem mem_addTag {tags : List String} {u t : String} :
    t ∈ addTag tags u ↔ t ∈ tags ∨ t = u := by
  unfold addTag
  split
  · rename_i h
    constructor
    · exact Or.inl
    · rintro (h1 | rfl)
      · exact h1
      · simpa using h
  · simp

theorem mem_addTags {new : List String} :
    ∀ {tags : List String} {t : String},
      t ∈ addTags tags new ↔ t ∈ tags ∨ t ∈ new := by
  induction new with
  | nil => simp [addTags]
  | cons u us ih =>
    intro tags t
    show t ∈ addTags (addTag tags u) us ↔ _
    rw [ih, mem_addTag]
    simp
    tauto

theorem index_not_std (lt : String) : "index" ∉ stdTagsOf lt := by
  unfold stdTagsOf
  split
  · simp
  · split <;> simp

theorem find?_mapCol (cols : List (String × ColumnSchema)) (m : String)
    (f : ColumnSchema → ColumnSchema) (n : String) :
    (mapCol cols m f).find? (fun p => p.1 == n) =
      (cols.find? (fun p => p.1 == n)).map
        (fun p => if p.1 == m then (p.1, f p.2) else p) := by
  induction cols with
  | nil => rfl
  | cons p ps ih =>
    simp only [mapCol, List.map_cons, List.find?_cons]
    have hfst : ((if p.1 == m then (p.1, f p.2) else p).1 == n) = (p.1 == n) := by
      cases hb : (p.1 == m) <;> simp [hb]
    rw [hfst]
    cases hn : (p.1 == n) with
    | true => simp
    | false => simpa [mapCol] using ih

theorem findCol_applyIndex_self (sch : TableSchema) (n : String) :
    findCol (applyIndex sch n) n = (findCol sch n).map applyIndexCol := by
  unfold findCol applyIndex
  simp only
  rw [find?_mapCol]
  cases hf : sch.columns.find? (fun p => p.1 == n) with
  | none => rfl
  | some p =>
    have hp : p.1 = n := by simpa using List.find?_some hf
    simp [hp]

theorem findCol_applyIndex_other (sch : TableSchema) (n m : String)
    (h : m ≠ n) : findCol (applyIndex sch n) m = findCol sch m := by
  unfold findCol applyIndex
  simp only
  rw [find?_mapCol]
  cases hf : sch.columns.find? (fun p => p.1 == m) with
  | none => rfl
  | some p =>
    have hp : p.1 = m := by
      have := List.find?_some hf
      simpa using this
    simp [hp, h]

theorem findCol_clearIndex_self (sch : TableSchema) (old : String)
    (h : sch.index = some old) :
    findCol (clearIndex sch) old =
      (findCol sch old).map (clearIndexCol sch.useStandardTags) := by
  unfold findCol clearIndex
  rw [h]
  simp only
  rw [find?_mapCol]
  cases hf : sch.columns.find? (fun p => p.1 == old) with
  | none => rfl
  | some p =>
    have hp : p.1 = old := by simpa using List.find?_some hf
    simp [hp]

theorem findCol_clearIndex_other (sch : TableSchema) (m : String)
    (h : ∀ old, sch.index = some old → m ≠ old) :
    findCol (clearIndex sch) m = findCol sch m := by
  unfold findCol clearIndex
  cases hi : sch.index with
  | none => rfl
  | some old =>
    simp only
    rw [find?_mapCol]
    cases hf : sch.columns.find? (fun p => p.1 == m) with
    | none => rfl
    | some p =>
      have hp : p.1 = m := by
        have := List.find?_some hf
        simpa using this
      simp [hp, h old hi]

theorem clearIndex_useStd (sch : TableSchema) :
    (clearIndex sch).useStandardTags = sch.useStandardTags := by
  unfold clearIndex
  cases sch.index <;> rfl

theorem applyIndex_useStd (sch : TableSchema) (n : String) :
    (applyIndex sch n).useStandardTags = sch.useStandardTags := rfl

theorem clearIndex_no_index_tag (sch : TableSchema)
    (hidx : ∀ p ∈ sch.columns, "index" ∈ p.2.tags → sch.index = some p.1) :
    ∀ p ∈ (clearIndex sch).columns, "index" ∉ p.2.tags := by
  unfold clearIndex
  cases hi : sch.index with
  | none =>
    intro p hp htag
    have := hidx p hp htag
    rw [hi] at this
    cases this
  | some old =>
    intro p hp htag
    simp only [mapCol, List.mem_map] at hp
    obtain ⟨q, hq, rfl⟩ := hp
    by_cases hb : (q.1 == old) = true
    · rw [if_pos hb] at htag
      simp only [clearIndexCol] at htag
      rw [mem_addTags] at htag
      rcases htag with h1 | h2
      · simp at h1
      · split at h2
        · exact index_not_std _ h2
        · cases h2
    · rw [if_neg hb] at htag
      have := hidx q hq htag
      rw [hi] at this
      have : q.1 = old := by
        injection this.symm
      simp [this] at hb

theorem applyIndex_only_new_tag (sch : TableSchema) (n : String)
    (h : ∀ p ∈ sch.columns, "index" ∉ p.2.tags) :
    ∀ p ∈ (applyIndex sch n).columns, "index" ∈ p.2.tags → p.1 = n := by
  intro p hp htag
  simp only [applyIndex, mapCol, List.mem_map] at hp
  obtain ⟨q, hq, rfl⟩ := hp
  by_cases hb : (q.1 == n) = true
  · rw [if_pos hb]
    exact eq_of_beq hb
  · rw [if_neg hb] at htag
    exact absurd htag (h q hq)

theorem set_index_ok_some {sch sch' : TableSchema} {b : Backend}
    {data : List (String × List Int)} {n : String}
    (h : set_index sch b data (some n) = .ok sch') :
    sch' = applyIndex (clearIndex sch) n ∧
      (findCol (clearIndex sch) n).isSome := by
  unfold set_index at h
  simp only at h
  split at h
  · split at h
    · split at h
      · refine ⟨?_, by assumption⟩
        injection h with h
        exact h.symm
      · cases h
    · cases h
  · cases h

/-- C6: after `set_index` to one column and then `set_index` to another,
exactly one column (the new index) carries the `index` tag, no other column
carries it, and the previous index column regains the standard tags its
LogicalType defines. -/
theorem set_index_single_index_tag (sch : TableSchema) (b : Backend)
    (data : List (String × List Int)) (n1 n2 : String) (hne : n1 ≠ n2)
    (huse : sch.useStandardTags = true)
    (hidx : ∀ p ∈ sch.columns, "index" ∈ p.2.tags → sch.index = some p.1)
    (sch1 sch2 : TableSchema)
    (h1 : set_index sch b data (some n1) = .ok sch1)
    (h2 : set_index sch1 b data (some n2) = .ok sch2) :
    sch2.index = some n2 ∧
    (∃ c2, findCol sch2 n2 = some c2 ∧ "index" ∈ c2.tags) ∧
    (∀ p ∈ sch2.columns, "index" ∈ p.2.tags → p.1 = n2) ∧
    (∃ c1, findCol sch2 n1 = some c1 ∧ "index" ∉ c1.tags ∧
      ∀ t ∈ stdTagsOf c1.ltypeName, t ∈ c1.tags) := by
  obtain ⟨rfl, hex1⟩ := set_index_ok_some h1
  obtain ⟨rfl, hex2⟩ := set_index_ok_some h2
  have noTag0 : ∀ p ∈ (clearIndex sch).columns, "index" ∉ p.2.tags :=
    clearIndex_no_index_tag sch hidx
  have inv1 : ∀ p ∈ (applyIndex (clearIndex sch) n1).columns,
      "index" ∈ p.2.tags → (applyIndex (clearIndex sch) n1).index = some p.1 := by
    intro p hp ht
    have hp1 := applyIndex_only_new_tag (clearIndex sch) n1 noTag0 p hp ht
    rw [hp1]
    rfl
  have noTag1 : ∀ p ∈ (clearIndex (applyIndex (clearIndex sch) n1)).columns,
      "index" ∉ p.2.tags :=
    clearIndex_no_index_tag (applyIndex (clearIndex sch) n1) inv1
  have huse1 : (applyIndex (clearIndex sch) n1).useStandardTags = true := by
    rw [applyIndex_useStd, clearIndex_useStd, huse]
  refine ⟨rfl, ?_, ?_, ?_⟩
  · obtain ⟨c, hc⟩ := Option.isSome_iff_exists.mp hex2
    refine ⟨applyIndexCol c, ?_, ?_⟩
    · rw [findCol_applyIndex_self, hc]
      rfl
    · exact mem_addTag.mpr (Or.inr rfl)
  · exact applyIndex_only_new_tag (clearIndex (applyIndex (clearIndex sch) n1))
      n2 noTag1
  · obtain ⟨c0, hc0⟩ := Option.isSome_iff_exists.mp hex1
    have hfc : findCol
        (applyIndex (clearIndex (applyIndex (clearIndex sch) n1)) n2) n1 =
        some (clearIndexCol true (applyIndexCol c0)) := by
      rw [findCol_applyIndex_other _ _ _ hne,
        findCol_clearIndex_self (applyIndex (clearIndex sch) n1) n1 rfl,
        findCol_applyIndex_self, hc0, huse1]
      rfl
    refine ⟨clearIndexCol true (applyIndexCol c0), hfc, ?_, ?_⟩
    · intro hmem
      simp only [clearIndexCol] at hmem
      rw [mem_addTags] at hmem
      rcases hmem with hm | hm
      · simp at hm
      · simp only [if_true] at hm
        exact index_not_std _ hm
    · intro t ht
      simp only [clearIndexCol]
      rw [mem_addTags]
      right
      simpa using ht

/-- Witness table schema for the index claims: an integer `id` column and a
categorical `other` column, no index yet. -/
def wSchema : TableSchema :=
  { columns := [("id", ⟨"Integer", none, ["numeric"]⟩),
                ("other", ⟨"Categorical", none, ["category"]⟩)]
    index := none
    timeIndex := none
    name := some "retail"
    useStandardTags := true
    metadata := [] }

/-- Witness backing data with unique values in both columns. -/
def wData : List (String × List Int) :=
  [("id", [1, 2, 3]), ("other", [4, 5, 6])]

/-- `wSchema` after `set_index` to `id`. -/
def wSchema1 : TableSchema :=
  { columns := [("id", ⟨"Integer", none, ["index"]⟩),
                ("other", ⟨"Categorical", none, ["category"]⟩)]
    index := some "id"
    timeIndex := none
    name := some "retail"
    useStandardTags := true
    metadata := [] }

/-- `wSchema1` after `set_index` to `other`. -/
def wSchema2 : TableSchema :=
  { columns := [("id", ⟨"Integer", none, ["numeric"]⟩),
                ("other", ⟨"Categorical", none, ["index"]⟩)]
    index := some "other"
    timeIndex := none
    name := some "retail"
    useStandardTags := true
    metadata := [] }

/-- Concrete witness for C6: `set_index('id')` then `set_index('other')` on
`wSchema` tags only `other` with `index` and restores the `numeric`
standard tag on `id`. -/
theorem set_index_single_index_tag_witness :
    wSchema2.index = some "other" ∧
    (∃ c2, findCol wSchema2 "other" = some c2 ∧ "index" ∈ c2.tags) ∧
    (∀ p ∈ wSchema2.columns, "index" ∈ p.2.tags → p.1 = "other") ∧
    (∃ c1, findCol wSchema2 "id" = some c1 ∧ "index" ∉ c1.tags ∧
      ∀ t ∈ stdTagsOf c1.ltypeName, t ∈ c1.tags) :=
  set_index_single_index_tag wSchema .pandas wData "id" "other" (by decide)
    rfl (by decide) wSchema1 wSchema2 rfl rfl

/-- C9: the index-uniqueness validation of `set_index` runs only for
pandas-backed tables: on a column with duplicate values, `set_index`
succeeds for Dask and for Koalas input but fails for pandas input. -/
theorem set_index_uniqueness_pandas_only (sch : TableSchema)
    (data : List (String × List Int)) (n : String) (col : List Int)
    (hcol : (findCol (clearIndex sch) n).isSome = true)
    (hdata : lookupData data n = some col)
    (hdup : (col.dedup.length == col.length) = false) :
    set_index sch .dask data (some n) = .ok (applyIndex (clearIndex sch) n) ∧
    set_index sch .koalas data (some n) = .ok (applyIndex (clearIndex sch) n) ∧
    set_index sch .pandas data (some n) =
      .error "IndexError: Index column must be unique" := by
  refine ⟨?_, ?_, ?_⟩ <;>
    simp [set_index, hcol, hdata, checkIndexUniqueness, hdup]

/-- Witness backing data for C9 with a duplicated value in column `id`. -/
def wDupData : List (String × List Int) := [("id", [1, 2, 2])]

/-- Concrete witness for C9: with duplicated `id` data, `set_index`
succeeds on Dask and Koalas backends and fails on pandas. -/
theorem set_index_uniqueness_pandas_only_witness :
    set_index wSchema .dask wDupData (some "id") =
      .ok (applyIndex (clearIndex wSchema) "id") ∧
    set_index wSchema .koalas wDupData (some "id") =
      .ok (applyIndex (clearIndex wSchema) "id") ∧
    set_index wSchema .pandas wDupData (some "id") =
      .error "IndexError: Index column must be unique" :=
  set_index_uniqueness_pandas_only wSchema wDupData "id" [1, 2, 2]
    rfl rfl rfl

/-- Number of non-null values in a column sample (null values excluded). -/
def nonNullCount (s : List (Option String)) : Nat :=
  (s.filterMap id).length

/-- Number of distinct non-null values in a column sample (null values
excluded). -/
def uniqueCount (s : List (Option String)) : Nat :=
  (s.filterMap id).dedup.length

/-- Modelled from the spec: the categorical threshold gate of inference
(§4.2, documentation's config-options guide): a string/categorical
candidate matches only if the ratio of unique value count to non-null
value count is at most (inclusive) the configured `categorical_threshold`,
with null values excluded from both counts. -/
def categoricalMatch (s : List (Option String)) (thr : ℚ) : Bool :=
  nonNullCount s != 0 &&
    decide ((uniqueCount s : ℚ) / (nonNullCount s : ℚ) ≤ thr)

/-- C5: the categorical match condition is an inclusive comparison of
`unique_count / non_null_count` against the threshold: with 2 unique
values among 10 non-null values and a threshold of 0.2 the candidate
matches (a strict comparison would reject it). -/
theorem categorical_threshold_inclusive (s : List (Option String)) (thr : ℚ)
    (h1 : uniqueCount s = 2) (h2 : nonNullCount s = 10) (h3 : thr = 1 / 5) :
    categoricalMatch s thr = true ∧
    ¬((uniqueCount s : ℚ) / (nonNullCount s : ℚ) < thr) := by
  subst h3
  unfold categoricalMatch
  rw [h1, h2]
  norm_num

/-- Witness sample for C5: 12 entries of which 2 are null, leaving 10
non-null values drawn from 2 distinct strings. -/
def wSample : List (Option String) :=
  [some "a", some "b", none, some "a", some "a", some "b", some "a",
   none, some "a", some "b", some "b", some "a"]

/-- Concrete witness for C5: `wSample` matches categorical at threshold
0.2 inclusively. -/
theorem categorical_threshold_inclusive_witness :
    categoricalMatch wSample (1 / 5) = true ∧
    ¬((uniqueCount wSample : ℚ) / (nonNullCount wSample : ℚ) < 1 / 5) :=
  categorical_threshold_inclusive wSample (1 / 5) rfl rfl rfl

/-- Modelled from the spec: the validation performed when the `Ordinal`
LogicalType is assigned to a column (documentation's Ordinal section and
data-validation limitations): an `order` parameter must be defined and,
on pandas input, every value present in the data must be an element of the
order; the check on the data is skipped for Dask and Koalas input. -/
def validateOrdinal (b : Backend) (order : Option (List String))
    (data : List String) : Except String Unit :=
  match order with
  | none => .error "Must use an Ordinal instance with order values defined"
  | some o =>
    match b with
    | .pandas =>
      if data.all (fun v => o.contains v) then .ok ()
      else .error "Ordinal column contains values not present in order"
    | _ => .ok ()

/-- C10: assigning the Ordinal type on a pandas backend succeeds exactly
when an order is defined and every data value is an element of that
order; otherwise the assignment is rejected at type-assignment time. -/
theorem ordinal_requires_order_and_membership
    (order : Option (List String)) (data : List String) :
    validateOrdinal .pandas order data = .ok () ↔
      ∃ o, order = some o ∧ ∀ v ∈ data, v ∈ o := by
  cases order with
  | none =>
    unfold validateOrdinal
    simp
  | some o =>
    unfold validateOrdinal
    simp only
    split
    · rename_i hall
      constructor
      · intro _
        refine ⟨o, rfl, fun v hv => ?_⟩
        have := List.all_eq_true.mp hall v hv
        simpa using this
      · intro _
        rfl
    · rename_i hall
      constructor
      · intro h
        cases h
      · rintro ⟨o2, ho2, hmem⟩
        exfalso
        apply hall
        injection ho2 with ho2
        subst ho2
        rw [List.all_eq_true]
        intro v hv
        simpa using hmem v hv

/-- Concrete witness for C10: a valid ordinal assignment with a defined
order covering all data values is accepted. -/
theorem ordinal_requires_order_and_membership_witness :
    validateOrdinal .pandas (some ["low", "medium", "high"])
      ["low", "high", "low"] = .ok () :=
  (ordinal_requires_order_and_membership (some ["low", "medium", "high"])
      ["low", "high", "low"]).mpr
    ⟨["low", "medium", "high"], rfl, by decide⟩

/-- Modelled from the spec: one entry of the persisted record's
`column_typing_info` list (§6): the column name, its LogicalType with the
type's parameters (the ordinal order list) and its semantic tags. -/
structure ColTypingRecord where
  colName : String
  ltypeName : String
  order : Option (List String)
  tags : List String
deriving DecidableEq, Repr

/-- Modelled from the spec: the persisted typing-information record (§6,
documentation's `woodwork_typing_info.json`): schema-format version, table
name, index and time-index column names, the ordered per-column typing
records, the table's standard-tags flag and the metadata bag. -/
structure TypingInfo where
  schemaVersion : String
  tableName : Option String
  index : Option String
  timeIndex : Option String
  columnTypingInfo : List ColTypingRecord
  useStandardTags : Bool
  tableMetadata : List (String × String)
deriving DecidableEq, Repr

/-- Serialize one column of a TableSchema into its typing record. -/
def serializeCol (p : String × ColumnSchema) : ColTypingRecord :=
  ⟨p.1, p.2.ltypeName, p.2.order, p.2.tags⟩

/-- Modelled from the spec: serialization of a TableSchema into the
persisted typing-information record (§6). -/
def to_typing_info (sch : TableSchema) : TypingInfo :=
  ⟨"10.0.2", sch.name, sch.index, sch.timeIndex,
    sch.columns.map serializeCol, sch.useStandardTags, sch.metadata⟩

/-- Deserialize one column typing record back into a column schema. -/
def deserializeCol (r : ColTypingRecord) : String × ColumnSchema :=
  (r.colName, ⟨r.ltypeName, r.order, r.tags⟩)

/-- Modelled from the spec: deserialization of the persisted record back
into a TableSchema (§6 `read_woodwork_table`). -/
def read_woodwork_table (ti : TypingInfo) : TableSchema :=
  ⟨ti.columnTypingInfo.map deserializeCol, ti.index, ti.timeIndex,
    ti.tableName, ti.useStandardTags, ti.tableMetadata⟩

/-- Equality of two semantic tag sets, as sets (list order irrelevant). -/
def tagSetEq (x y : List String) : Bool :=
  x.all (y.contains ·) && y.all (x.contains ·)

/-- Modelled from the spec: per-column schema equality (§4.4): same
LogicalType (with its parameters), same tags and same nullability. -/
def colEq (c d : ColumnSchema) : Bool :=
  (c.ltypeName == d.ltypeName) &&
  (isNullable c.ltypeName == isNullable d.ltypeName) &&
  (c.order == d.order) && tagSetEq c.tags d.tags

/-- Whether the two schemas have the same set of column names. -/
def sameColumnSet (a b : TableSchema) : Bool :=
  (a.columns.map Prod.fst).all (fun n => (b.columns.map Prod.fst).contains n) &&
  (b.columns.map Prod.fst).all (fun n => (a.columns.map Prod.fst).contains n)

/-- Modelled from the spec: TableSchema equality (§4.4): same column set,
same per-column LogicalType+tags+nullability, same index and time-index
designation and same `use_standard_tags`, name and metadata.  It consumes
only the two schemas, never the underlying data of any backend. -/
def schema_eq (a b : TableSchema) : Bool :=
  sameColumnSet a b &&
  a.columns.all (fun p =>
    match findCol b p.1 with
    | some d => colEq p.2 d
    | none => false) &&
  (a.index == b.index) && (a.timeIndex == b.timeIndex) &&
  (a.name == b.name) && (a.useStandardTags == b.useStandardTags) &&
  (a.metadata == b.metadata)

theorem findCol_isSome_iff_mem (a : TableSchema) (n : String) :
    (∃ c, findCol a n = some c) ↔ n ∈ a.columns.map Prod.fst := by
  unfold findCol
  constructor
  · rintro ⟨c, hc⟩
    cases hf : a.columns.find? (fun p => p.1 == n) with
    | none => rw [hf] at hc; cases hc
    | some p =>
      have hp : p.1 = n := by simpa using List.find?_some hf
      have hmem := List.mem_of_find?_eq_some hf
      exact hp ▸ List.mem_map_of_mem Prod.fst hmem
  · intro hmem
    rw [List.mem_map] at hmem
    obtain ⟨p, hp, rfl⟩ := hmem
    have : (a.columns.find? (fun q => q.1 == p.1)).isSome := by
      rw [List.find?_isSome]
      exact ⟨p, hp, by simp⟩
    obtain ⟨q, hq⟩ := Option.isSome_iff_exists.mp this
    exact ⟨q.2, by rw [hq]; rfl⟩

theorem findCol_of_mem_nodup {cols : List (String × ColumnSchema)}
    (hnd : (cols.map Prod.fst).Nodup) {n : String} {c : ColumnSchema}
    (hmem : (n, c) ∈ cols) :
    cols.find? (fun p => p.1 == n) = some (n, c) := by
  induction cols with
  | nil => cases hmem
  | cons q qs ih =>
    rw [List.map_cons, List.nodup_cons] at hnd
    rcases List.mem_cons.mp hmem with hq | hq
    · subst hq
      simp [List.find?_cons]
    · have hq1 : (q.1 == n) = false := by
        have : n ∈ qs.map Prod.fst := by
          rw [List.mem_map]
          exact ⟨(n, c), hq, rfl⟩
        have hne : q.1 ≠ n := fun h => hnd.1 (h ▸ this)
        simpa using hne
      rw [List.find?_cons, hq1]
      exact ih hnd.2 hq

theorem tagSetEq_refl (x : List String) : tagSetEq x x = true := by
  unfold tagSetEq
  rw [Bool.and_self, List.all_eq_true]
  intro t ht
  simpa using ht

theorem colEq_refl (c : ColumnSchema) : colEq c c = true := by
  unfold colEq
  simp [tagSetEq_refl]

theorem schema_eq_refl (a : TableSchema)
    (hnd : (a.columns.map Prod.fst).Nodup) : schema_eq a a = true := by
  unfold schema_eq sameColumnSet
  simp only [Bool.and_eq_true, beq_self_eq_true, and_true]
  refine ⟨⟨?_, ?_⟩, ?_⟩
  · rw [List.all_eq_true]
    intro n hn
    simpa using hn
  · rw [List.all_eq_true]
    intro n hn
    simpa using hn
  · rw [List.all_eq_true]
    intro p hp
    have hfc : a.columns.find? (fun q => q.1 == p.1) = some (p.1, p.2) :=
      findCol_of_mem_nodup hnd hp
    unfold findCol
    rw [hfc]
    simpa using colEq_refl p.2

/-- C7: serializing a TableSchema to the persisted typing-information
record and deserializing that record yields a TableSchema equal to the
original under schema equality (round-trip identity). -/
theorem serialize_roundtrip_identity (sch : TableSchema)
    (hnd : (sch.columns.map Prod.fst).Nodup) :
    schema_eq (read_woodwork_table (to_typing_info sch)) sch = true := by
  have hid : read_woodwork_table (to_typing_info sch) = sch := by
    show TableSchema.mk ((sch.columns.map serializeCol).map deserializeCol)
      sch.index sch.timeIndex sch.name sch.useStandardTags sch.metadata = sch
    rw [List.map_map]
    have hcomp : deserializeCol ∘ serializeCol = id := funext fun p => rfl
    rw [hcomp, List.map_id]
  rw [hid]
  exact schema_eq_refl sch hnd

/-- Witness schema for C7: an index column, a time-index column and an
ordinal column carrying a custom order list. -/
def wSerSchema : TableSchema :=
  { columns :=
      [("order_product_id", ⟨"Integer", none, ["index"]⟩),
       ("order_date", ⟨"Datetime", none, ["time_index"]⟩),
       ("size", ⟨"Ordinal", some ["small", "medium", "large"], ["category"]⟩)]
    index := some "order_product_id"
    timeIndex := some "order_date"
    name := some "demo_retail_data"
    useStandardTags := true
    metadata := [("source", "retail")] }

/-- Concrete witness for C7: round-tripping `wSerSchema` through the
persisted record reproduces an equal schema. -/
theorem serialize_roundtrip_identity_witness :
    schema_eq (read_woodwork_table (to_typing_info wSerSchema))
      wSerSchema = true :=
  serialize_roundtrip_identity wSerSchema (by decide)

/-- C8: TableSchema equality holds exactly when the two schemas have the
same column-name set, the same per-column LogicalType, tag set,
nullability and type parameters, the same index and time-index
designations, and the same `use_standard_tags`, name and metadata; it is a
function of the two schemas alone, independent of any backend's data. -/
theorem schema_eq_characterization (a b : TableSchema)
    (hnd : (a.columns.map Prod.fst).Nodup) :
    schema_eq a b = true ↔
      ((∀ n, (∃ c, findCol a n = some c) ↔ (∃ d, findCol b n = some d)) ∧
       (∀ n c d, findCol a n = some c → findCol b n = some d →
         c.ltypeName = d.ltypeName ∧ (∀ t, t ∈ c.tags ↔ t ∈ d.tags) ∧
         isNullable c.ltypeName = isNullable d.ltypeName ∧
         c.order = d.order) ∧
       a.index = b.index ∧ a.timeIndex = b.timeIndex ∧ a.name = b.name ∧
       a.useStandardTags = b.useStandardTags ∧ a.metadata = b.metadata) := by
  unfold schema_eq sameColumnSet
  simp only [Bool.and_eq_true, beq_iff_eq]
  constructor
  · rintro ⟨⟨⟨⟨⟨⟨⟨ha2b, hb2a⟩, hcols⟩, hi⟩, ht⟩, hn⟩, hu⟩, hm⟩
    refine ⟨?_, ?_, hi, ht, hn, hu, hm⟩
    · intro n
      rw [findCol_isSome_iff_mem, findCol_isSome_iff_mem]
      constructor
      · intro hin
        have := List.all_eq_true.mp ha2b n hin
        simpa using this
      · intro hin
        have := List.all_eq_true.mp hb2a n hin
        simpa using this
    · intro n c d hc hd
      cases hf : a.columns.find? (fun p => p.1 == n) with
      | none =>
        rw [findCol, hf] at hc
        cases hc
      | some p =>
        have hp1 : p.1 = n := by simpa using List.find?_some hf
        have hp2 : p.2 = c := by
          rw [findCol, hf] at hc
          injection hc
        have hpmem := List.mem_of_find?_eq_some hf
        have hall := List.all_eq_true.mp hcols p hpmem
        rw [hp1, hd] at hall
        rw [← hp2]
        simp only [colEq, Bool.and_eq_true, beq_iff_eq] at hall
        obtain ⟨⟨⟨hlt, hnl⟩, hor⟩, htags⟩ := hall
        refine ⟨hlt, ?_, hnl, hor⟩
        intro t
        simp only [tagSetEq, Bool.and_eq_true, List.all_eq_true] at htags
        constructor
        · intro htm
          have := htags.1 t htm
          simpa using this
        · intro htm
          have := htags.2 t htm
          simpa using this
  · rintro ⟨hset, hcol, hi, ht, hn, hu, hm⟩
    refine ⟨⟨⟨⟨⟨⟨⟨?_, ?_⟩, ?_⟩, hi⟩, ht⟩, hn⟩, hu⟩, hm⟩
    · rw [List.all_eq_true]
      intro n hin
      have : n ∈ b.columns.map Prod.fst := by
        rw [← findCol_isSome_iff_mem]
        rw [← hset]
        rw [findCol_isSome_iff_mem]
        exact hin
      simpa using this
    · rw [List.all_eq_true]
      intro n hin
      have : n ∈ a.columns.map Prod.fst := by
        rw [← findCol_isSome_iff_mem]
        rw [hset]
        rw [findCol_isSome_iff_mem]
        exact hin
      simpa using this
    · rw [List.all_eq_true]
      intro p hp
      have hfa : findCol a p.1 = some p.2 := by
        unfold findCol
        rw [findCol_of_mem_nodup hnd hp]
        rfl
      have hina : p.1 ∈ a.columns.map Prod.fst :=
        List.mem_map_of_mem Prod.fst hp
      have hinb : ∃ d, findCol b p.1 = some d := (hset p.1).mp ⟨p.2, hfa⟩
      obtain ⟨d, hd⟩ := hinb
      have := hcol p.1 p.2 d hfa hd
      obtain ⟨hlt, htags, hnl, hor⟩ := this
      rw [hd]
      simp only [colEq, Bool.and_eq_true, beq_iff_eq]
      refine ⟨⟨⟨hlt, hnl⟩, hor⟩, ?_⟩
      simp only [tagSetEq, Bool.and_eq_true, List.all_eq_true]
      constructor
      · intro t htm
        have := (htags t).mp htm
        simpa using this
      · intro t htm
        have := (htags t).mpr htm
        simpa using this

/-- First witness schema for C8. -/
def wEqA : TableSchema :=
  { columns := [("id", ⟨"Integer", none, ["numeric", "key"]⟩),
                ("name", ⟨"NaturalLanguage", none, []⟩)]
    index := none
    timeIndex := none
    name := some "t"
    useStandardTags := true
    metadata := [] }

/-- Second witness schema for C8: the same columns in a different order
and with the `id` tag set listed in a different order. -/
def wEqB : TableSchema :=
  { columns := [("name", ⟨"NaturalLanguage", none, []⟩),
                ("id", ⟨"Integer", none, ["key", "numeric"]⟩)]
    index := none
    timeIndex := none
    name := some "t"
    useStandardTags := true
    metadata := [] }

/-- Concrete witness for C8: from the equality of `wEqA` and `wEqB` the
characterization yields that `wEqB` also has an `id` column. -/
theorem schema_eq_characterization_witness :
    ∃ c, findCol wEqB "id" = some c :=
  (((schema_eq_characterization wEqA wEqB (by decide)).mp (by decide)).1
      "id").mp ⟨⟨"Integer", none, ["numeric", "key"]⟩, rfl⟩

end Woodwork
